import Mathlib

/-!
Verification of the dataset-composition and size-aware batching pipeline
of the fairseq excerpt (tasks `sentence_ranking` and `hubert_pretraining`,
the `validate` CLI entry point and the binary tests).

The task classes under `src/fairseq/tasks` are embedded directly.  The
dataset wrapper classes from `fairseq.data` (PrependTokenDataset,
TruncateDataset, ConcatSentencesDataset, NestedDictionaryDataset,
SortDataset, HubertDataset), the Dictionary collaborator, numpy's
`permutation`, and the batch-iterator machinery are imported by the tasks
but their code is not part of this excerpt; where a property depends on
them, they are modelled from the specification, and each such definition
says so in its doc comment.
-/

namespace Fairseq

/-- A lazy, index-addressable dataset of token sequences: `len` examples,
`get i` realizes the element at index `i`, `size i` reports its length
without realizing it.  This is the interface described in the spec's
composition layer (spec section 4.2 and design note 2). -/
structure Dataset where
  len : Nat
  get : Nat → List Nat
  size : Nat → Nat

/-- A dataset is size/content consistent when, at every valid index, the
cheaply reported size equals the length of the realized element. -/
def sizeConsistent (D : Dataset) : Prop :=
  ∀ i, i < D.len → (D.get i).length = D.size i

/-- Modelled from the spec: `fairseq.data.PrependTokenDataset` (imported by
sentence_ranking.py but not under src/).  Inserts a fixed token id at
position 0; size grows by one. -/
def PrependTokenDataset (D : Dataset) (tok : Nat) : Dataset where
  len := D.len
  get := fun i => tok :: D.get i
  size := fun i => D.size i + 1

/-- Modelled from the spec: `fairseq.data.TruncateDataset` (imported by
sentence_ranking.py but not under src/).  Clips each element to its first
`maxLen` entries; size becomes `min (original) maxLen`. -/
def TruncateDataset (D : Dataset) (maxLen : Nat) : Dataset where
  len := D.len
  get := fun i => (D.get i).take maxLen
  size := fun i => min (D.size i) maxLen

/-- Modelled from the spec: `fairseq.data.ConcatSentencesDataset` (imported
by sentence_ranking.py but not under src/).  Per index, the result is
`A[i]` followed by `B[i]`; sizes add. -/
def ConcatSentencesDataset (A B : Dataset) : Dataset where
  len := A.len
  get := fun i => A.get i ++ B.get i
  size := fun i => A.size i + B.size i

/-- A concrete dataset backed by an explicit list of elements; its size
index is derived from the stored elements, so it is consistent by
construction.  Used as the base indexed dataset collaborator. -/
def listDataset (xs : List (List Nat)) : Dataset where
  len := xs.length
  get := fun i => xs.getD i []
  size := fun i => (xs.getD i []).length

theorem listDataset_consistent (xs : List (List Nat)) :
    sizeConsistent (listDataset xs) := by
  intro i _
  rfl

theorem prepend_consistent (D : Dataset) (tok : Nat) (h : sizeConsistent D) :
    sizeConsistent (PrependTokenDataset D tok) := by
  intro i hi
  simp [PrependTokenDataset, h i hi]

theorem truncate_consistent (D : Dataset) (m : Nat) (h : sizeConsistent D) :
    sizeConsistent (TruncateDataset D m) := by
  intro i hi
  simp [TruncateDataset, h i hi, Nat.min_comm]

theorem concat_consistent (A B : Dataset) (hAB : A.len = B.len)
    (hA : sizeConsistent A) (hB : sizeConsistent B) :
    sizeConsistent (ConcatSentencesDataset A B) := by
  intro i hi
  have hiB : i < B.len := hAB ▸ hi
  simp [ConcatSentencesDataset, hA i hi, hB i hiB]

/-- The `if tok is not None: d = PrependTokenDataset(d, tok)` pattern of
`SentenceRankingTask.load_dataset`. -/
def maybePrepend (D : Dataset) : Option Nat → Dataset
  | some t => PrependTokenDataset D t
  | none => D

/-- The `if m is not None: d = TruncateDataset(d, m)` pattern of
`SentenceRankingTask.load_dataset`. -/
def maybeTruncate (D : Dataset) : Option Nat → Dataset
  | some m => TruncateDataset D m
  | none => D

theorem maybePrepend_consistent (D : Dataset) (t : Option Nat)
    (h : sizeConsistent D) : sizeConsistent (maybePrepend D t) := by
  cases t with
  | some t => exact prepend_consistent D t h
  | none => exact h

theorem maybeTruncate_consistent (D : Dataset) (m : Option Nat)
    (h : sizeConsistent D) : sizeConsistent (maybeTruncate D m) := by
  cases m with
  | some m => exact truncate_consistent D m h
  | none => exact h

theorem maybePrepend_len (D : Dataset) (t : Option Nat) :
    (maybePrepend D t).len = D.len := by
  cases t <;> rfl

theorem maybeTruncate_len (D : Dataset) (m : Option Nat) :
    (maybeTruncate D m).len = D.len := by
  cases m <;> rfl

/-- The per-option source pipeline built by
`SentenceRankingTask.load_dataset` (sentence_ranking.py lines 125-137):
optionally prepend the separator token to `input0`, optionally prepend the
init token to the option, optionally truncate the option to
`max_option_length`, concatenate option and `input0`, and optionally
truncate the whole sequence. -/
def buildSrcToken (inputOption input0 : Dataset)
    (initToken separatorToken : Option Nat) (maxOptionLength : Option Nat)
    (truncateSequence : Bool) (maxPos : Nat) : Dataset :=
  let input0' := maybePrepend input0 separatorToken
  let opt := maybeTruncate (maybePrepend inputOption initToken) maxOptionLength
  let st := ConcatSentencesDataset opt input0'
  if truncateSequence then TruncateDataset st maxPos else st

/-- C1: for every composed transformation pipeline built by the
sentence-ranking task and every valid index, the size reported without
realizing the example equals the length of the realized example. -/
theorem srcToken_size_consistent (inputOption input0 : Dataset)
    (initToken separatorToken maxOptionLength : Option Nat)
    (truncateSequence : Bool) (maxPos : Nat)
    (hlen : inputOption.len = input0.len)
    (hA : sizeConsistent inputOption) (hB : sizeConsistent input0) :
    sizeConsistent (buildSrcToken inputOption input0 initToken separatorToken
      maxOptionLength truncateSequence maxPos) := by
  unfold buildSrcToken
  have h0 := maybePrepend_consistent input0 separatorToken hB
  have hOpt := maybeTruncate_consistent (maybePrepend inputOption initToken)
    maxOptionLength (maybePrepend_consistent inputOption initToken hA)
  have hcatlen : (maybeTruncate (maybePrepend inputOption initToken)
      maxOptionLength).len = (maybePrepend input0 separatorToken).len := by
    rw [maybeTruncate_len, maybePrepend_len, maybePrepend_len, hlen]
  have hcat := concat_consistent _ _ hcatlen hOpt h0
  cases truncateSequence with
  | true => exact truncate_consistent _ maxPos hcat
  | false => exact hcat

/-- Witness for C1 at concrete inputs: two two-element base datasets, all
optional transformations active. -/
theorem srcToken_size_consistent_witness :
    sizeConsistent (buildSrcToken (listDataset [[1, 2, 3], [4]])
      (listDataset [[5], [6, 7]]) (some 0) (some 9) (some 2) true 4) :=
  srcToken_size_consistent (listDataset [[1, 2, 3], [4]])
    (listDataset [[5], [6, 7]]) (some 0) (some 9) (some 2) true 4 rfl
    (listDataset_consistent _) (listDataset_consistent _)

/-- Modelled from the spec: the failure mode of concatenating datasets of
different lengths (spec section 4.2, *Concatenate*). -/
inductive DataError where
  | lengthMismatch
  deriving DecidableEq

/-- Modelled from the spec: the constructor-level contract of
`ConcatSentencesDataset` — concatenation requires `len(A) == len(B)` and
otherwise fails with `LengthMismatchError` (spec section 4.2). -/
def concatSentences (A B : Dataset) : Except DataError Dataset :=
  if A.len = B.len then .ok (ConcatSentencesDataset A B)
  else .error .lengthMismatch

/-- C8: concatenating two equal-length datasets succeeds with per-index
additive sizes and element-wise concatenation; different lengths fail with
`LengthMismatchError`. -/
theorem concatSentences_spec (A B : Dataset) (i : Nat) :
    (A.len = B.len →
      concatSentences A B = .ok (ConcatSentencesDataset A B) ∧
      (ConcatSentencesDataset A B).size i = A.size i + B.size i ∧
      (ConcatSentencesDataset A B).get i = A.get i ++ B.get i) ∧
    (A.len ≠ B.len → concatSentences A B = .error .lengthMismatch) := by
  constructor
  · intro h
    refine ⟨?_, rfl, rfl⟩
    simp [concatSentences, h]
  · intro h
    simp [concatSentences, h]

/-- Witness for C8: concrete equal-length and mismatched-length pairs. -/
theorem concatSentences_spec_witness :
    concatSentences (listDataset [[1], [2, 3]]) (listDataset [[4, 5], [6]]) =
      .ok (ConcatSentencesDataset (listDataset [[1], [2, 3]])
        (listDataset [[4, 5], [6]])) ∧
    concatSentences (listDataset [[1]]) (listDataset [[4], [6]]) =
      .error .lengthMismatch := by
  constructor
  · exact ((concatSentences_spec (listDataset [[1], [2, 3]])
      (listDataset [[4, 5], [6]]) 0).1 rfl).1
  · exact (concatSentences_spec (listDataset [[1]])
      (listDataset [[4], [6]]) 0).2 (by decide)

/-- Encoding failure: a token absent from a closed dictionary
(spec section 7, `UnknownSymbolError`). -/
inductive EncodeError where
  | unknownSymbol (tok : String)
  deriving DecidableEq

/-- Modelled from the spec: the Dictionary collaborator (spec sections 2
and 3) — ordered symbols whose id is their position, reserved unk/pad/eos
ids, and a closed-vocabulary mode flag controlling whether absent tokens
fail or map to unk. -/
structure Dictionary where
  symbols : List String
  unkIndex : Nat
  padIndex : Nat
  eosIndex : Nat
  closedVocab : Bool

/-- Position of a symbol in the dictionary's symbol table. -/
def findIndex (tok : String) : List String → Option Nat
  | [] => none
  | s :: rest => if s = tok then some 0 else (findIndex tok rest).map (· + 1)

/-- Modelled from the spec: encoding one token under `add_if_not_exist` —
a present token maps to its id; an absent one grows the vocabulary when
growth is requested, fails with `UnknownSymbolError` when the dictionary is
closed, and maps to unk otherwise (spec sections 4.1 and 7). -/
def encodeToken (d : Dictionary) (addIfNotExist : Bool) (tok : String) :
    Except EncodeError (Nat × Dictionary) :=
  match findIndex tok d.symbols with
  | some i => .ok (i, d)
  | none =>
    if addIfNotExist then
      .ok (d.symbols.length, { d with symbols := d.symbols ++ [tok] })
    else if d.closedVocab then .error (.unknownSymbol tok)
    else .ok (d.unkIndex, d)

/-- Sequential encoding of a token list, threading the (possibly grown)
dictionary. -/
def encodeTokens (d : Dictionary) (addIfNotExist : Bool) :
    List String → Except EncodeError (List Nat × Dictionary)
  | [] => .ok ([], d)
  | tok :: rest => do
    let (i, d1) ← encodeToken d addIfNotExist tok
    let (ids, d2) ← encodeTokens d1 addIfNotExist rest
    .ok (i :: ids, d2)

/-- Modelled from the spec: `Dictionary.encode_line` (the collaborator
interface `encode_line(text) -> sequence of ids`, spec section 2), with the
`append_eos` and `add_if_not_exist` switches used by the call in
hubert_pretraining.py. -/
def encode_line (d : Dictionary) (toks : List String)
    (appendEos addIfNotExist : Bool) :
    Except EncodeError (List Nat × Dictionary) := do
  let (ids, d1) ← encodeTokens d addIfNotExist toks
  .ok (if appendEos then ids ++ [d1.eosIndex] else ids, d1)

/-- `LabelEncoder.__call__` (hubert_pretraining.py lines 25-32): encodes a
label via the wrapped dictionary with `append_eos=False` and
`add_if_not_exist=False`. -/
def LabelEncoder (d : Dictionary) (label : List String) :
    Except EncodeError (List Nat × Dictionary) :=
  encode_line d label false false

theorem encodeTokens_no_growth (toks : List String) (d : Dictionary)
    (ids : List Nat) (d' : Dictionary)
    (h : encodeTokens d false toks = .ok (ids, d')) :
    d' = d ∧ ids.length = toks.length := by
  induction toks generalizing d ids d' with
  | nil =>
    simp [encodeTokens] at h
    simp [h.1, h.2]
  | cons tok rest ih =>
    simp only [encodeTokens, bind, Except.bind] at h
    cases htok : encodeToken d false tok with
    | error e => rw [htok] at h; exact absurd h (by simp)
    | ok p =>
      rw [htok] at h
      obtain ⟨i, d1⟩ := p
      have hd1 : d1 = d := by
        unfold encodeToken at htok
        cases hf : findIndex tok d.symbols with
        | some j => rw [hf] at htok; simp at htok; exact htok.2.symm
        | none =>
          rw [hf] at htok
          simp only [Bool.false_eq_true, if_false] at htok
          cases hc : d.closedVocab with
          | true => rw [hc] at htok; exact absurd htok (by simp)
          | false => rw [hc] at htok; simp at htok; exact htok.2.symm
      dsimp only at h
      cases hrest : encodeTokens d1 false rest with
      | error e => rw [hrest] at h; exact absurd h (by simp)
      | ok q =>
        rw [hrest] at h
        obtain ⟨ids1, d2⟩ := q
        simp at h
        obtain ⟨hids, hd2⟩ := h
        obtain ⟨hA, hB⟩ := ih d1 ids1 d2 hrest
        subst hids
        constructor
        · rw [← hd2, hA, hd1]
        · simp [hB]

theorem encodeTokens_closed_unknown (toks : List String) (d : Dictionary)
    (hclosed : d.closedVocab = true) (tok : String) (hmem : tok ∈ toks)
    (habsent : findIndex tok d.symbols = none) :
    ∃ t, encodeTokens d false toks = .error (.unknownSymbol t) ∧
      findIndex t d.symbols = none := by
  induction toks with
  | nil => cases hmem
  | cons head rest ih =>
    by_cases hh : findIndex head d.symbols = none
    · refine ⟨head, ?_, hh⟩
      simp only [encodeTokens, encodeToken, hh, hclosed, Bool.false_eq_true,
        if_false, if_true]
      rfl
    · push_neg at hh
      obtain ⟨j, hj⟩ := Option.ne_none_iff_exists'.mp hh
      have hne : tok ≠ head := by
        intro he
        rw [he, hj] at habsent
        exact absurd habsent (by simp)
      have hmem' : tok ∈ rest := by
        cases hmem with
        | head => exact absurd rfl hne
        | tail _ h => exact h
      obtain ⟨t, ht, htabs⟩ := ih hmem'
      refine ⟨t, ?_, htabs⟩
      simp only [encodeTokens, encodeToken, hj, bind, Except.bind, ht]

/-- C2: `LabelEncoder` returns the dictionary's encoding without appending
an end-of-sequence id (one id per token) and without growing the
dictionary; with a closed-vocabulary dictionary, an absent token yields
`UnknownSymbolError` instead of silent growth. -/
theorem labelEncoder_spec (d : Dictionary) (label : List String) :
    (∀ ids d', LabelEncoder d label = .ok (ids, d') →
      d' = d ∧ ids.length = label.length) ∧
    (d.closedVocab = true → ∀ tok, tok ∈ label →
      findIndex tok d.symbols = none →
      ∃ t, LabelEncoder d label = .error (.unknownSymbol t) ∧
        findIndex t d.symbols = none) := by
  constructor
  · intro ids d' h
    simp only [LabelEncoder, encode_line, bind, Except.bind] at h
    cases henc : encodeTokens d false label with
    | error e => rw [henc] at h; exact absurd h (by simp)
    | ok p =>
      rw [henc] at h
      obtain ⟨ids1, d1⟩ := p
      simp at h
      obtain ⟨hids, hd⟩ := h
      obtain ⟨hA, hB⟩ := encodeTokens_no_growth label d ids1 d1 henc
      subst hids
      exact ⟨hd ▸ hA, hB⟩
  · intro hclosed tok hmem habsent
    obtain ⟨t, ht, htabs⟩ :=
      encodeTokens_closed_unknown label d hclosed tok hmem habsent
    refine ⟨t, ?_, htabs⟩
    simp only [LabelEncoder, encode_line, bind, Except.bind, ht]

/-- Witness for C2: a closed two-symbol dictionary; a present label encodes
one id per token with no growth, and an absent token raises. -/
theorem labelEncoder_spec_witness :
    (∀ ids d',
      LabelEncoder ⟨["a", "b"], 0, 1, 2, true⟩ ["b", "a"] = .ok (ids, d') →
      d' = ⟨["a", "b"], 0, 1, 2, true⟩ ∧ ids.length = 2) ∧
    (∃ t, LabelEncoder ⟨["a", "b"], 0, 1, 2, true⟩ ["a", "c"] =
      .error (.unknownSymbol t) ∧ findIndex t ["a", "b"] = none) := by
  constructor
  · intro ids d' h
    exact (labelEncoder_spec ⟨["a", "b"], 0, 1, 2, true⟩ ["b", "a"]).1 ids d' h
  · exact (labelEncoder_spec ⟨["a", "b"], 0, 1, 2, true⟩ ["a", "c"]).2 rfl
      "c" (by decide) (by decide)

/-- A crop window into the raw input: start offset and length
(spec section 3, *Crop Window*). -/
structure CropWindow where
  start : Nat
  len : Nat

/-- Modelled from the spec: the crop-to-label alignment of the
multi-stream aligned dataset (`HubertDataset`, constructed in
hubert_pretraining.py lines 171-187 but not under src/): the label
sub-range is obtained by floor-dividing both crop endpoints by the
sample-rate/label-rate ratio (spec sections 3 and 4.3). -/
def cropLabelRange (sampleRate labelRate : Nat) (c : CropWindow) :
    Nat × Nat :=
  let ratio := sampleRate / labelRate
  (c.start / ratio, (c.start + c.len) / ratio)

theorem lt_div_succ_mul (x r : Nat) (hr : 0 < r) : x < (x / r + 1) * r := by
  have h1 := Nat.div_add_mod x r
  have h2 := Nat.mod_lt x hr
  calc x = r * (x / r) + x % r := h1.symm
    _ < r * (x / r) + r := by omega
    _ = (x / r + 1) * r := by ring

/-- C9: both endpoints of the computed label range are the floors of the
corresponding crop endpoints divided by the sample-rate/label-rate ratio,
and the concrete crop `[3200, 6400)` at `sample_rate=16000`,
`label_rate=50` maps to label range `[10, 20)`. -/
theorem cropLabelRange_spec (sampleRate labelRate : Nat) (c : CropWindow)
    (hr : 0 < sampleRate / labelRate) :
    ((cropLabelRange sampleRate labelRate c).1 * (sampleRate / labelRate) ≤
        c.start ∧
      c.start < ((cropLabelRange sampleRate labelRate c).1 + 1) *
        (sampleRate / labelRate)) ∧
    ((cropLabelRange sampleRate labelRate c).2 * (sampleRate / labelRate) ≤
        c.start + c.len ∧
      c.start + c.len < ((cropLabelRange sampleRate labelRate c).2 + 1) *
        (sampleRate / labelRate)) ∧
    cropLabelRange 16000 50 ⟨3200, 3200⟩ = (10, 20) := by
  refine ⟨⟨Nat.div_mul_le_self _ _, lt_div_succ_mul _ _ hr⟩,
    ⟨Nat.div_mul_le_self _ _, lt_div_succ_mul _ _ hr⟩, by decide⟩

/-- Witness for C9 at the spec's concrete numbers. -/
theorem cropLabelRange_spec_witness :
    cropLabelRange 16000 50 ⟨3200, 3200⟩ = (10, 20) :=
  (cropLabelRange_spec 16000 50 ⟨3200, 3200⟩ (by decide)).2.2

/-- A 64-bit linear congruential pseudo-random step, driving the modelled
permutation generator. -/
def lcg (s : Nat) : Nat := (6364136223846793005 * s + 1442695040888963407) % 2 ^ 64

/-- Modelled from the spec: the deterministic uniform shuffle behind
`np.random.permutation` under `data_utils.numpy_seed(self.seed)`
(sentence_ranking.py lines 139-141; numpy and `fairseq.data.data_utils`
are not under src/) — a Fisher-Yates draw without replacement from the
remaining elements, driven by the seed. -/
def fisherYates (s : Nat) (l : List Nat) : List Nat :=
  if h : l.length = 0 then []
  else
    let v := l.get ⟨s % l.length, Nat.mod_lt s (Nat.pos_of_ne_zero h)⟩
    v :: fisherYates (lcg s) (l.erase v)
termination_by l.length
decreasing_by
  have hv : l.get ⟨s % l.length, Nat.mod_lt s (Nat.pos_of_ne_zero h)⟩ ∈ l :=
    List.get_mem l _ _
  have := List.length_erase_of_mem hv
  have hpos := Nat.pos_of_ne_zero h
  omega

theorem fisherYates_perm (s : Nat) (l : List Nat) :
    (fisherYates s l).Perm l := by
  generalize hn : l.length = n
  induction n using Nat.strong_induction_on generalizing s l with
  | _ n ih =>
    rw [fisherYates]
    by_cases h : l.length = 0
    · rw [dif_pos h]
      rw [List.length_eq_zero] at h
      subst h
      exact List.Perm.refl []
    · rw [dif_neg h]
      have hv : l.get ⟨s % l.length, Nat.mod_lt s (Nat.pos_of_ne_zero h)⟩ ∈ l :=
        List.get_mem l _ _
      have herase : (l.erase (l.get ⟨s % l.length,
          Nat.mod_lt s (Nat.pos_of_ne_zero h)⟩)).length = l.length - 1 :=
        List.length_erase_of_mem hv
      have hlt : (l.erase (l.get ⟨s % l.length,
          Nat.mod_lt s (Nat.pos_of_ne_zero h)⟩)).length < n := by
        rw [herase, hn]
        have := Nat.pos_of_ne_zero h
        omega
      have hperm := ih _ hlt (lcg s) _ rfl
      exact (hperm.cons _).trans (List.perm_cons_erase hv).symm

/-- The shuffle permutation drawn at load time for a dataset of `n`
examples from seed `s`. -/
def np_random_permutation (s n : Nat) : List Nat :=
  fisherYates s (List.range n)

/-- The visible index order produced by `SentenceRankingTask.load_dataset`
(sentence_ranking.py lines 139-141 and 175-182): natural order when
`no_shuffle` is set, otherwise the seed-drawn permutation presented through
`SortDataset`. -/
def loadOrder (noShuffle : Bool) (seed n : Nat) : List Nat :=
  if noShuffle then List.range n else np_random_permutation seed n

/-- C3: the load-time index order is a permutation of `[0, n)` visiting
every original index exactly once, is reproduced identically from the same
seed, and is the natural order when shuffling is disabled. -/
theorem loadOrder_spec (noShuffle : Bool) (seed n : Nat) :
    (loadOrder noShuffle seed n).Perm (List.range n) ∧
    (∀ j, j < n → (loadOrder noShuffle seed n).count j = 1) ∧
    (∀ seed2, seed2 = seed →
      loadOrder noShuffle seed2 n = loadOrder noShuffle seed n) ∧
    (noShuffle = true → loadOrder noShuffle seed n = List.range n) := by
  have hperm : (loadOrder noShuffle seed n).Perm (List.range n) := by
    unfold loadOrder np_random_permutation
    cases noShuffle with
    | true => simp
    | false => simpa using fisherYates_perm seed (List.range n)
  refine ⟨hperm, ?_, ?_, ?_⟩
  · intro j hj
    rw [hperm.count_eq]
    exact List.count_eq_one_of_mem (List.nodup_range n) (List.mem_range.mpr hj)
  · intro seed2 h
    rw [h]
  · intro h
    simp [loadOrder, h]

/-- Witness for C3: at `n = 5`, every index below 5 occurs exactly once in
the shuffled order, the same seed reproduces the order, and disabling the
shuffle yields the natural order. -/
theorem loadOrder_spec_witness :
    ((loadOrder false 42 5).count 3 = 1) ∧
    loadOrder false 42 5 = loadOrder false 42 5 ∧
    loadOrder true 42 5 = List.range 5 := by
  refine ⟨(loadOrder_spec false 42 5).2.1 3 (by decide),
    (loadOrder_spec false 42 5).2.2.1 42 rfl,
    (loadOrder_spec true 42 5).2.2.2 rfl⟩

/-- Outcome of size-filtering the candidate indices: either the kept
indices together with the count of excluded ones, or the fatal oversized
report naming the offending index and its size. -/
inductive BatchFilterResult where
  | ok (kept : List Nat) (numExcluded : Nat)
  | oversized (idx size : Nat)
  deriving DecidableEq

/-- Modelled from the spec: the size check of the batch iterator builder
(`task.get_batch_iterator` called from validate.py lines 81-93; the
builder itself is not under src/).  Each candidate index's size is checked
against the resolved `max_positions`: oversized examples are skipped and
counted when `skip` is enabled, and otherwise abort the run with an
`OversizedExampleError` naming the index and size (spec sections 4.5 and
7, and the expectation of `test_max_positions` in test_binaries.py
lines 69-86). -/
def filter_indices_by_size (sizes : Nat → Nat) (maxPos : Nat) (skip : Bool) :
    List Nat → BatchFilterResult
  | [] => .ok [] 0
  | i :: rest =>
    if maxPos < sizes i then
      if skip then
        match filter_indices_by_size sizes maxPos skip rest with
        | .ok kept m => .ok kept (m + 1)
        | .oversized j sz => .oversized j sz
      else .oversized i (sizes i)
    else
      match filter_indices_by_size sizes maxPos skip rest with
      | .ok kept m => .ok (i :: kept) m
      | .oversized j sz => .oversized j sz

theorem filter_indices_skip_eq (sizes : Nat → Nat) (maxPos : Nat)
    (indices : List Nat) :
    filter_indices_by_size sizes maxPos true indices =
      .ok (indices.filter (fun i => decide (sizes i ≤ maxPos)))
        (indices.countP (fun i => decide (maxPos < sizes i))) := by
  induction indices with
  | nil => rfl
  | cons i rest ih =>
    by_cases h : maxPos < sizes i
    · rw [filter_indices_by_size, if_pos h, if_pos rfl, ih]
      have h2 : ¬ sizes i ≤ maxPos := by omega
      simp [List.filter_cons, List.countP_cons, h, h2]
    · rw [filter_indices_by_size, if_neg h, ih]
      have h2 : sizes i ≤ maxPos := by omega
      simp [List.filter_cons, List.countP_cons, h, h2]

theorem filter_indices_raise (sizes : Nat → Nat) (maxPos : Nat)
    (indices : List Nat) (i : Nat) (hi : i ∈ indices)
    (hover : maxPos < sizes i) :
    ∃ j, j ∈ indices ∧ maxPos < sizes j ∧
      filter_indices_by_size sizes maxPos false indices =
        .oversized j (sizes j) := by
  induction indices with
  | nil => cases hi
  | cons a rest ih =>
    by_cases ha : maxPos < sizes a
    · refine ⟨a, List.mem_cons_self a rest, ha, ?_⟩
      rw [filter_indices_by_size, if_pos ha]
      simp
    · have hi' : i ∈ rest := by
        cases hi with
        | head => exact absurd hover ha
        | tail _ h => exact h
      obtain ⟨j, hj, hjover, hjres⟩ := ih hi'
      refine ⟨j, List.mem_cons_of_mem a hj, hjover, ?_⟩
      rw [filter_indices_by_size, if_neg ha, hjres]

/-- C4: with skip-invalid-size-inputs enabled the builder excludes exactly
the oversized examples and reports their count; with it disabled, any
oversized candidate makes the run fail with an oversized report naming an
offending index and its size, and no batch index set is produced. -/
theorem batch_size_filtering_spec (sizes : Nat → Nat) (maxPos : Nat)
    (indices : List Nat) :
    (filter_indices_by_size sizes maxPos true indices =
      .ok (indices.filter (fun i => decide (sizes i ≤ maxPos)))
        (indices.countP (fun i => decide (maxPos < sizes i)))) ∧
    (∀ i, i ∈ indices → maxPos < sizes i →
      ∃ j, j ∈ indices ∧ maxPos < sizes j ∧
        filter_indices_by_size sizes maxPos false indices =
          .oversized j (sizes j)) := by
  exact ⟨filter_indices_skip_eq sizes maxPos indices,
    fun i hi hover => filter_indices_raise sizes maxPos indices i hi hover⟩

/-- Witness for C4 at the spec's concrete scenario: `max_positions = 50`
and one example of size 51 — skip keeps nothing and reports one exclusion;
no-skip reports the oversized example as index 0 of size 51. -/
theorem batch_size_filtering_spec_witness :
    filter_indices_by_size (fun _ => 51) 50 true [0] = .ok [] 1 ∧
    (∃ j, j ∈ [0] ∧ 50 < (fun _ => 51) j ∧
      filter_indices_by_size (fun _ => 51) 50 false [0] =
        .oversized j ((fun _ => 51) j)) := by
  constructor
  · exact (batch_size_filtering_spec (fun _ => 51) 50 [0]).1
  · exact (batch_size_filtering_spec (fun _ => 51) 50 [0]).2 0
      (List.mem_singleton.mpr rfl) (by decide)

/-- A Python runtime value, as far as attribute lookup on a task object is
concerned: a number, a pair of numbers, None, or a bound method. -/
inductive PyVal where
  | vnum (n : Int)
  | vpair (a b : Int)
  | vnone
  | boundMethod (cls attrName : String)
  deriving DecidableEq

/-- The instance attributes assigned by `SentenceRankingTask.__init__`
(sentence_ranking.py lines 57-69); no attribute named `max_positions` is
ever assigned on the instance. -/
def sentenceRankingInstanceAttrs : List String :=
  ["data", "num_classes", "init_token", "separator_token", "no_shuffle",
   "truncate_sequence", "max_option_length", "dataset_impl", "seed",
   "dictionary"]

/-- The plain methods defined on the `SentenceRankingTask` class body. -/
def sentenceRankingClassMethods : List String :=
  ["add_args", "load_dictionary", "setup_task", "load_dataset",
   "build_model", "max_positions"]

/-- Python attribute lookup on a `SentenceRankingTask` object: the
instance dictionary is consulted first, then the class body, where a
function attribute is returned as a bound method. -/
def getattrSentenceRanking (inst : String → PyVal) (attrName : String) :
    PyVal :=
  if attrName ∈ sentenceRankingInstanceAttrs then inst attrName
  else if attrName ∈ sentenceRankingClassMethods then
    .boundMethod "SentenceRankingTask" attrName
  else .vnone

/-- The body of `SentenceRankingTask.max_positions`
(sentence_ranking.py lines 200-201): `return self.max_positions`, an
attribute lookup of the name `max_positions` on `self`. -/
def sentenceRanking_max_positions (inst : String → PyVal) : PyVal :=
  getattrSentenceRanking inst "max_positions"

/-- C5 (failing part): calling `SentenceRankingTask.max_positions` yields
the bound method object itself — the name resolves through the class body
because no instance attribute `max_positions` exists — so the task does
not return a usable numeric per-field bound for the min-resolution of the
effective max_positions. -/
theorem sentenceRanking_max_positions_not_numeric (inst : String → PyVal) :
    sentenceRanking_max_positions inst =
      .boundMethod "SentenceRankingTask" "max_positions" ∧
    (∀ n, sentenceRanking_max_positions inst ≠ .vnum n) ∧
    (∀ a b, sentenceRanking_max_positions inst ≠ .vpair a b) := by
  have h : sentenceRanking_max_positions inst =
      .boundMethod "SentenceRankingTask" "max_positions" := by
    unfold sentenceRanking_max_positions getattrSentenceRanking
    rw [if_neg (by decide), if_pos (by decide)]
  exact ⟨h, fun n => by rw [h]; exact fun hc => PyVal.noConfusion hc,
    fun a b => by rw [h]; exact fun hc => PyVal.noConfusion hc⟩

/-- Modelled from the spec: the element-wise `np.maximum.reduce` used for
the `sizes` row of `NestedDictionaryDataset`
(sentence_ranking.py line 172; numpy is not under src/). -/
def maximum_reduce : List (List Nat) → List Nat
  | [] => []
  | [a] => a
  | a :: rest => List.zipWith max a (maximum_reduce rest)

theorem maximum_reduce_spec (arrs : List (List Nat)) (n : Nat)
    (hne : arrs ≠ []) (hlen : ∀ a, a ∈ arrs → a.length = n) :
    (maximum_reduce arrs).length = n ∧
    ∀ i, i < n →
      (maximum_reduce arrs).getD i 0 =
        (arrs.map (fun a => a.getD i 0)).foldr max 0 ∧
      ∀ a, a ∈ arrs → a.getD i 0 ≤ (maximum_reduce arrs).getD i 0 := by
  induction arrs with
  | nil => exact absurd rfl hne
  | cons a rest ih =>
    cases rest with
    | nil =>
      have ha : a.length = n := hlen a (List.mem_singleton.mpr rfl)
      refine ⟨ha, fun i hi => ?_⟩
      constructor
      · simp [maximum_reduce]
      · intro b hb
        rw [List.mem_singleton.mp hb]
        simp [maximum_reduce]
    | cons a2 rest2 =>
      have hrest : (a2 :: rest2) ≠ [] := by simp
      have hlenrest : ∀ b, b ∈ (a2 :: rest2) → b.length = n :=
        fun b hb => hlen b (List.mem_cons_of_mem a hb)
      obtain ⟨ihlen, ihspec⟩ := ih hrest hlenrest
      have ha : a.length = n := hlen a (List.mem_cons_self _ _)
      have hml : (maximum_reduce (a :: a2 :: rest2)).length = n := by
        show (List.zipWith max a (maximum_reduce (a2 :: rest2))).length = n
        rw [List.length_zipWith, ha, ihlen, Nat.min_self]
      refine ⟨hml, fun i hi => ?_⟩
      have hia : i < a.length := ha ▸ hi
      have hir : i < (maximum_reduce (a2 :: rest2)).length := ihlen ▸ hi
      have him : i < (maximum_reduce (a :: a2 :: rest2)).length := hml ▸ hi
      have hzip : (maximum_reduce (a :: a2 :: rest2)).getD i 0 =
          max (a.getD i 0) ((maximum_reduce (a2 :: rest2)).getD i 0) := by
        show (List.zipWith max a (maximum_reduce (a2 :: rest2))).getD i 0 = _
        have him2 : i <
            (List.zipWith max a (maximum_reduce (a2 :: rest2))).length := him
        rw [List.getD_eq_getElem _ _ him2, List.getD_eq_getElem _ _ hia,
          List.getD_eq_getElem _ _ hir]
        exact List.getElem_zipWith
      obtain ⟨iheq, ihle⟩ := ihspec i hi
      constructor
      · rw [hzip, iheq]
        simp [List.foldr_cons]
      · intro b hb
        rw [hzip]
        cases hb with
        | head => exact Nat.le_max_left _ _
        | tail _ hbtail =>
          exact Nat.le_trans (ihle b hbtail) (Nat.le_max_right _ _)

/-- C6: when the nested dataset is built over several parallel comparison
keys, the per-index size row is the element-wise maximum across the keys:
it equals the fold of `max` over the per-index sizes and never
under-estimates any key's size at any index. -/
theorem nested_sizes_elementwise_max (arrs : List (List Nat)) (n : Nat)
    (hne : arrs ≠ []) (hlen : ∀ a, a ∈ arrs → a.length = n) :
    (maximum_reduce arrs).length = n ∧
    ∀ i, i < n →
      (maximum_reduce arrs).getD i 0 =
        (arrs.map (fun a => a.getD i 0)).foldr max 0 ∧
      ∀ a, a ∈ arrs → a.getD i 0 ≤ (maximum_reduce arrs).getD i 0 :=
  maximum_reduce_spec arrs n hne hlen

/-- Witness for C6: three parallel size rows of width two. -/
theorem nested_sizes_elementwise_max_witness :
    (maximum_reduce [[3, 1], [2, 5], [0, 4]]).length = 2 ∧
    ∀ i, i < 2 →
      (maximum_reduce [[3, 1], [2, 5], [0, 4]]).getD i 0 =
        ([[3, 1], [2, 5], [0, 4]].map (fun a => a.getD i 0)).foldr max 0 ∧
      ∀ a, a ∈ [[3, 1], [2, 5], [0, 4]] →
        a.getD i 0 ≤ (maximum_reduce [[3, 1], [2, 5], [0, 4]]).getD i 0 :=
  nested_sizes_elementwise_max [[3, 1], [2, 5], [0, 4]] 2 (by decide)
    (by intro a ha; fin_cases ha <;> rfl)

/-- A Python AttributeError raised when an attribute is read on `None`. -/
inductive PyAttrError where
  | attributeError (attrName : String)
  deriving DecidableEq

/-- `dictionaries_factory` (hubert_pretraining.py lines 147-154): each
configured label is mapped to the loaded dictionary when its dict file
exists and to None otherwise.  The filesystem read
(`Dictionary.load` guarded by `os.path.exists`) is abstracted as
`dictFile`, returning `none` for an absent file. -/
def dictionaries_factory (labels : List String)
    (dictFile : String → Option Dictionary) :
    List (String × Option Dictionary) :=
  labels.map (fun l => (l, dictFile l))

/-- The attribute access `d.pad()` as executed by `load_dataset`: on a
dictionary it returns the pad id, on None it raises AttributeError. -/
def pyPad : Option Dictionary → Except PyAttrError Nat
  | some d => .ok d.padIndex
  | none => .error (.attributeError "pad")

/-- Sequencing of a Python list comprehension whose body may raise. -/
def exceptMapList (f : α → Except ε β) : List α → Except ε (List β)
  | [] => .ok []
  | a :: as => do
    let b ← f a
    let bs ← exceptMapList f as
    .ok (b :: bs)

/-- The `pad_list` comprehension at the start of
`HubertPretrainingTask.load_dataset` (hubert_pretraining.py line 163):
`[self._dictionaries[l].pad() for l in self.cfg.labels]`, reading the
dictionaries recorded by the factory. -/
def load_dataset_pad_list (labels : List String)
    (dicts : String → Option Dictionary) : Except PyAttrError (List Nat) :=
  exceptMapList (fun l => pyPad (dicts l)) labels

/-- C7 counterexample: with one configured label stream "ltr" whose
dictionary file is absent, the factory does record no dictionary for the
stream, but `load_dataset` then fails with an AttributeError while
building `pad_list` — it does not succeed with an identity encoder. -/
theorem absent_dictionary_load_fails :
    dictionaries_factory ["ltr"] (fun _ => none) = [("ltr", none)] ∧
    load_dataset_pad_list ["ltr"] (fun _ => none) =
      .error (.attributeError "pad") := by
  exact ⟨rfl, rfl⟩

theorem exceptMapList_ok_of_forall (f : α → Except ε β) (l : List α)
    (h : ∀ a, a ∈ l → ∃ b, f a = .ok b) :
    ∃ bs, exceptMapList f l = .ok bs := by
  induction l with
  | nil => exact ⟨[], rfl⟩
  | cons a as ih =>
    obtain ⟨b, hb⟩ := h a (List.mem_cons_self _ _)
    obtain ⟨bs, hbs⟩ := ih (fun x hx => h x (List.mem_cons_of_mem a hx))
    refine ⟨b :: bs, ?_⟩
    simp only [exceptMapList, bind, Except.bind, hb, hbs]

theorem exceptMapList_error_of_mem (f : α → Except ε β) (l : List α)
    (a : α) (ha : a ∈ l) (e : ε) (he : f a = .error e) :
    ∃ e2, exceptMapList f l = .error e2 := by
  induction l with
  | nil => cases ha
  | cons x xs ih =>
    cases hx : f x with
    | error ex =>
      refine ⟨ex, ?_⟩
      simp only [exceptMapList, bind, Except.bind, hx]
    | ok b =>
      have ha2 : a ∈ xs := by
        cases ha with
        | head => rw [hx] at he; exact absurd he (by simp)
        | tail _ h => exact h
      obtain ⟨e2, he2⟩ := ih ha2
      refine ⟨e2, ?_⟩
      simp only [exceptMapList, bind, Except.bind, hx, he2]

/-- C7 amended: a stream whose dictionary file is absent is recorded with
no dictionary by the factory, but loading a split then fails with an
AttributeError while building the pad list; loading succeeds only when
every configured stream's dictionary file is present. -/
theorem absent_dictionary_spec (labels : List String)
    (dictFile : String → Option Dictionary) :
    (∀ l, l ∈ labels → dictFile l = none →
      (l, none) ∈ dictionaries_factory labels dictFile ∧
      ∃ e, load_dataset_pad_list labels dictFile = .error e) ∧
    ((∀ l, l ∈ labels → ∃ d, dictFile l = some d) →
      ∃ pads, load_dataset_pad_list labels dictFile = .ok pads) := by
  constructor
  · intro l hl habsent
    constructor
    · rw [dictionaries_factory]
      exact List.mem_map.mpr ⟨l, hl, by rw [habsent]⟩
    · exact exceptMapList_error_of_mem _ labels l hl (.attributeError "pad")
        (by rw [habsent]; rfl)
  · intro hall
    refine exceptMapList_ok_of_forall _ labels (fun l hl => ?_)
    obtain ⟨d, hd⟩ := hall l hl
    exact ⟨d.padIndex, by rw [hd]; rfl⟩

/-- Witness for C7 amended: the absent-file stream is recorded as None and
load fails; with the file present, load succeeds. -/
theorem absent_dictionary_spec_witness :
    (("ltr", (none : Option Dictionary)) ∈
      dictionaries_factory ["ltr"] (fun _ => none) ∧
      ∃ e, load_dataset_pad_list ["ltr"] (fun _ => none) = .error e) ∧
    ∃ pads, load_dataset_pad_list ["ltr"]
      (fun _ => some ⟨["a"], 0, 1, 2, true⟩) = .ok pads := by
  constructor
  · exact (absent_dictionary_spec ["ltr"] (fun _ => none)).1 "ltr"
      (List.mem_singleton.mpr rfl) rfl
  · exact (absent_dictionary_spec ["ltr"]
      (fun _ => some ⟨["a"], 0, 1, 2, true⟩)).2
      (fun l _ => ⟨⟨["a"], 0, 1, 2, true⟩, rfl⟩)

/-- `sys.maxsize` on a 64-bit platform. -/
def sysMaxsize : Nat := 2 ^ 63 - 1

/-- `HubertPretrainingTask.max_positions`
(hubert_pretraining.py lines 189-190): `(sys.maxsize, sys.maxsize)`. -/
def hubert_max_positions : Nat × Nat := (sysMaxsize, sysMaxsize)

/-- `HubertPretrainingTask.filter_indices_by_size`
(hubert_pretraining.py lines 192-195): returns the given indices
unchanged, ignoring all further arguments. -/
def hubert_filter_indices_by_size (indices : List Nat)
    (_extraArgs : List Nat) : List Nat :=
  indices

/-- C10: the hubert pretraining task's size filter returns its input
unchanged for every index array and extra arguments — so no index is ever
excluded — and its `max_positions` is `(sys.maxsize, sys.maxsize)`. -/
theorem hubert_no_size_filtering (indices : List Nat)
    (extraArgs : List Nat) :
    hubert_filter_indices_by_size indices extraArgs = indices ∧
    (∀ i, i ∈ indices → i ∈ hubert_filter_indices_by_size indices extraArgs) ∧
    hubert_max_positions = (sysMaxsize, sysMaxsize) :=
  ⟨rfl, fun _ hi => hi, rfl⟩

end Fairseq
